import Mathlib

/-!
Verification of the pressurelid pattern-safety library.

Strings are modelled as `List Char` (JavaScript strings are sequences of
UTF-16 code units; every string that occurs in the claims is within the
Basic Multilingual Plane, where code units and code points coincide).

The five entries of `DANGEROUS_PATTERNS` in `src/analyze.ts` are JavaScript
regex literals used only through `.test(pattern)`.  Each is translated here
as an executable scanner over the pattern text whose result agrees with the
regex's search semantics; the regex source is quoted above each scanner.
-/

/-- `SafeRegexReason` from `src/types.ts`: the closed reason-code enumeration. -/
inductive SafeRegexReason where
  | ok
  | pattern_too_long
  | nested_quantifiers
  | overlapping_alternation
  | catastrophic_backtracking
  | invalid_syntax
  | execution_timeout
deriving DecidableEq, Repr

/-- `PatternAnalysis` from `src/types.ts`.  `analyzePattern` always sets
`reason`; `message` is absent exactly on the safe branch. -/
structure PatternAnalysis where
  safe : Bool
  reason : SafeRegexReason
  message : Option String
deriving DecidableEq, Repr

/-- Does the head of the list exist and equal `+` or `*`?  (Used where a
signature regex requires `[+*]` immediately after a closing delimiter.) -/
def headIsQuant : List Char → Bool
  | q :: _ => q == '+' || q == '*'
  | [] => false

/-- Inner scan for signature 1, after an opening `(`: the regex fragment
`[^)]*[+*][^)]*\)[+*]`.  `sawQ` records whether a `+` or `*` was seen since
the `(`.  The closing `)` is necessarily the first `)` after the `(`,
because `[^)]` cannot match `)`. -/
def sig1Inner : List Char → Bool → Bool
  | [], _ => false
  | c :: rest, sawQ =>
      if c = ')' then sawQ && headIsQuant rest
      else sig1Inner rest (sawQ || c == '+' || c == '*')

/-- Signature 1 of `DANGEROUS_PATTERNS`: `/\([^)]*[+*][^)]*\)[+*]/`
(nested quantifiers).  `.test` searches at every position, hence the `||`
over every `(` start. -/
def sig1 : List Char → Bool
  | [] => false
  | c :: rest => (if c = '(' then sig1Inner rest false else false) || sig1 rest

/-- Inner scan for signature 2, after an opening `(`: the regex fragment
`[^)]*\|[^)]*\)[+*]`, with `sawBar` recording a `|` since the `(`. -/
def sig2Inner : List Char → Bool → Bool
  | [], _ => false
  | c :: rest, sawBar =>
      if c = ')' then sawBar && headIsQuant rest
      else sig2Inner rest (sawBar || c == '|')

/-- Signature 2 of `DANGEROUS_PATTERNS`: `/\([^)]*\|[^)]*\)[+*]/`
(overlapping alternation). -/
def sig2 : List Char → Bool
  | [] => false
  | c :: rest => (if c = '(' then sig2Inner rest false else false) || sig2 rest

/-- Scan for the regex fragment `[0-9,]+\}` (after a `{`): one or more
digits/commas, then `}`.  `n` counts the characters consumed so far. -/
def sig3Digits : List Char → Nat → Bool
  | [], _ => false
  | c :: rest, n =>
      if c = '}' then decide (0 < n)
      else (c.isDigit || c == ',') && sig3Digits rest (n + 1)

/-- Scan for the regex fragment `\{[0-9,]+\}` at the head of the list. -/
def sig3Brace : List Char → Bool
  | [] => false
  | c :: rest => c == '{' && sig3Digits rest 0

/-- Inner scan for signature 3, after an opening `(`: the regex fragment
`[^)]+\)\{[0-9,]+\}[+*]?`.  `n` counts characters between `(` and the first
`)` (the `[^)]+` must be non-empty); the trailing `[+*]?` can always match
the empty string so it does not constrain `.test`. -/
def sig3Inner : List Char → Nat → Bool
  | [], _ => false
  | c :: rest, n =>
      if c = ')' then decide (0 < n) && sig3Brace rest
      else sig3Inner rest (n + 1)

/-- Signature 3 of `DANGEROUS_PATTERNS`: `/\([^)]+\)\{[0-9,]+\}[+*]?/`
(repeated group). -/
def sig3 : List Char → Bool
  | [] => false
  | c :: rest => (if c = '(' then sig3Inner rest 0 else false) || sig3 rest

/-- Scan for the regex fragment `[^)]*[+*]\)` (used twice by signature 4):
the first `)` encountered must be immediately preceded by `+` or `*`;
`lastQ` records whether the previous character was `+` or `*`. -/
def sig4Inner2 : List Char → Bool → Bool
  | [], _ => false
  | c :: rest, lastQ =>
      if c = ')' then lastQ
      else sig4Inner2 rest (c == '+' || c == '*')

/-- Scan for the regex fragment `[^)]*[+*]\)[^)]*[+*]\)` (after the inner
`(` of signature 4). -/
def sig4Inner1 : List Char → Bool → Bool
  | [], _ => false
  | c :: rest, lastQ =>
      if c = ')' then lastQ && sig4Inner2 rest false
      else sig4Inner1 rest (c == '+' || c == '*')

/-- After the outer `(` of signature 4: scan the `[^)]*` region for an inner
`(`, trying every candidate `(` (the regex backtracks over the choice), and
failing if a `)` arrives first. -/
def sig4Second : List Char → Bool
  | [] => false
  | c :: rest =>
      if c = ')' then false
      else (if c = '(' then sig4Inner1 rest false else false) || sig4Second rest

/-- Signature 4 of `DANGEROUS_PATTERNS`:
`/\([^)]*\([^)]*[+*]\)[^)]*[+*]\)/` (deeply nested quantified groups). -/
def sig4 : List Char → Bool
  | [] => false
  | c :: rest => (if c = '(' then sig4Second rest else false) || sig4 rest

/-- Scan for the second class of signature 5: the fragment `[^\]]+\][+*]`
(after its opening `[`), `n` counting the `[^\]]+` characters. -/
def sig5B : List Char → Nat → Bool
  | [], _ => false
  | c :: rest, n =>
      if c = ']' then decide (0 < n) && headIsQuant rest
      else sig5B rest (n + 1)

/-- After the first `][+*]` of signature 5: the next characters must be a
quantifier, then `[`, then the second class. -/
def sig5Q : List Char → Bool
  | q :: '[' :: rest => (q == '+' || q == '*') && sig5B rest 0
  | _ => false

/-- Scan for the first class of signature 5 after its opening `[`: the
fragment `[^\]]+\][+*]\[[^\]]+\][+*]`. -/
def sig5A : List Char → Nat → Bool
  | [], _ => false
  | c :: rest, n =>
      if c = ']' then decide (0 < n) && sig5Q rest
      else sig5A rest (n + 1)

/-- Signature 5 of `DANGEROUS_PATTERNS`:
`/\[[^\]]+\][+*]\[[^\]]+\][+*]/` (adjacent quantified character classes). -/
def sig5 : List Char → Bool
  | [] => false
  | c :: rest => (if c = '[' then sig5A rest 0 else false) || sig5 rest

/-- Loop body of `countQuantifierNesting` from `src/analyze.ts`: one pass
holding the previous character (`none` at the first position, where
`pattern[i-1]` is `undefined`), the current group depth and the maximum
depth recorded so far.  `Math.max(0, inGroup - 1)` is natural subtraction. -/
def cqnAux : List Char → Option Char → Nat → Nat → Nat
  | [], _, _, maxD => maxD
  | c :: rest, prev, inG, maxD =>
      if c = '(' ∧ prev ≠ some '\\' then cqnAux rest (some c) (inG + 1) maxD
      else if c = ')' ∧ prev ≠ some '\\' then cqnAux rest (some c) (inG - 1) maxD
      else if (c = '+' ∨ c = '*' ∨ c = '?') ∧ prev ≠ some '\\' ∧ 0 < inG then
        cqnAux rest (some c) inG (max maxD inG)
      else cqnAux rest (some c) inG maxD

/-- `countQuantifierNesting` from `src/analyze.ts`. -/
def countQuantifierNesting (p : List Char) : Nat := cqnAux p none 0 0

/-- `analyzePattern` from `src/analyze.ts`: first match in the ordered
`DANGEROUS_PATTERNS` list wins, then the nesting-depth check against the
fixed threshold 2, else safe. -/
def analyzePattern (p : List Char) : PatternAnalysis :=
  if sig1 p then
    ⟨false, SafeRegexReason.nested_quantifiers,
      some "Pattern contains nested quantifiers which can cause exponential backtracking"⟩
  else if sig2 p then
    ⟨false, SafeRegexReason.overlapping_alternation,
      some "Pattern contains alternation with quantifier which may cause backtracking"⟩
  else if sig3 p then
    ⟨false, SafeRegexReason.catastrophic_backtracking,
      some "Pattern contains repeated group which may cause backtracking"⟩
  else if sig4 p then
    ⟨false, SafeRegexReason.nested_quantifiers,
      some "Pattern contains deeply nested quantifiers"⟩
  else if sig5 p then
    ⟨false, SafeRegexReason.catastrophic_backtracking,
      some "Pattern contains overlapping character classes with quantifiers"⟩
  else if 2 < countQuantifierNesting p then
    ⟨false, SafeRegexReason.nested_quantifiers,
      some ("Pattern has excessive quantifier nesting depth ("
        ++ toString (countQuantifierNesting p) ++ ")")⟩
  else ⟨true, SafeRegexReason.ok, none⟩

/-- Body characters admitted by the third branch of `quickSafetyCheck`:
the class `[^+*?()]`. -/
def okBody (c : Char) : Bool :=
  !(c == '+' || c == '*' || c == '?' || c == '(' || c == ')')

/-- Tail of the anchored-literal shape: one or more `[^+*?()]` characters
followed by a literal `$` which is also the end of the string (the body may
itself contain `$`, so the split is forced to be at the final character). -/
def anchoredRest : List Char → Bool
  | [] => false
  | [c] => c == '$'
  | c :: rest => okBody c && anchoredRest rest

/-- Third branch of `quickSafetyCheck`: `/^\^[^+*?()]+\$$/`. -/
def anchoredSimple : List Char → Bool
  | '^' :: c :: rest => okBody c && anchoredRest rest
  | _ => false

/-- `/[+*?]/.test(pattern)` from `quickSafetyCheck`. -/
def hasQuantChar (p : List Char) : Bool :=
  p.any fun c => c == '+' || c == '*' || c == '?'

/-- `/[()]/.test(pattern)` from `quickSafetyCheck`. -/
def hasParenChar (p : List Char) : Bool :=
  p.any fun c => c == '(' || c == ')'

/-- `quickSafetyCheck` from `src/analyze.ts`: true when the pattern has no
quantifier characters, or no group delimiters, or is an anchored literal. -/
def quickSafetyCheck (p : List Char) : Bool :=
  !hasQuantChar p || !hasParenChar p || anchoredSimple p

example : sig1 ['(', 'a', '+', ')', '+'] = true := by decide
example : sig1 ['(', 'a', '*', ')', '*'] = true := by decide
example : sig1 ['(', 'a', '{', '1', ',', '}', ')', '+'] = false := by decide
example : (analyzePattern ['(', 'a', '{', '1', ',', '}', ')', '+']).safe = true := by decide
example : (analyzePattern ['(', 'a', '|', 'a', 'b', ')', '+']).reason
    = SafeRegexReason.overlapping_alternation := by decide
example : (analyzePattern ['(', 'a', '+', ')', '{', '1', '0', '}']).reason
    = SafeRegexReason.catastrophic_backtracking := by decide
example : (analyzePattern ['h', 'e', 'l', 'l', 'o']).safe = true := by decide
example : quickSafetyCheck ['[', 'a', ']', '+', '[', 'b', ']', '+'] = true := by decide
example : (analyzePattern ['[', 'a', ']', '+', '[', 'b', ']', '+']).safe = false := by decide
example : quickSafetyCheck ['^', 'h', 'e', 'l', 'l', 'o', '$'] = true := by decide
example : quickSafetyCheck ['(', 'a', '+', ')', '+'] = false := by decide
example : countQuantifierNesting ['(', '(', 'a', '+', ')', '+', ')'] = 2 := by decide

/-!
Model of the host regex engine (external collaborator, spec section 6:
`compile(pattern, flags) -> handle | syntax error`, `handle.test(input) ->
boolean`).  The engine is not part of this repository; `create` is therefore
parameterised over it.  `jsEngine` below is a concrete instance covering the
fragment of JavaScript regex syntax that the library itself produces
(literal characters, identity escapes of metacharacters, `[^/]`, `.`, a
postfix `*`, and outer `^`/`$` anchors); it reports a syntax error on
anything outside that fragment, so it is a partial model of the host engine,
sound for every pattern the claims evaluate.  Case-insensitive matching is
modelled by comparing lower-cased characters.
-/

/-- An atom of the modelled regex fragment: a literal character, the class
`[^/]`, or `.` (any character except a line terminator). -/
inductive RAtom where
  | lit (c : Char)
  | clsNotSlash
  | dot
deriving DecidableEq, Repr

/-- An atom, possibly under a postfix `*`. -/
inductive RItem where
  | once (a : RAtom)
  | star (a : RAtom)
deriving DecidableEq, Repr

/-- A compiled handle: anchoring, the item sequence, and the `i` flag. -/
structure CompiledRegex where
  anchoredStart : Bool
  anchoredEnd : Bool
  items : List RItem
  ignoreCase : Bool
deriving DecidableEq, Repr

/-- Characters whose identity escape `\c` the engine model accepts (the
metacharacters escaped by the library's own escape transforms). -/
def escapables : List Char :=
  ['.', '*', '+', '?', '^', '$', '{', '}', '(', ')', '|', '[', ']', '\\']

/-- Raw characters the engine model refuses to treat as literals (anchors,
group/alternation/quantifier syntax, stray brackets and backslashes). -/
def rejectChars : List Char :=
  ['^', '$', '(', ')', '|', '{', '}', '+', '?', '*', '[', ']', '\\']

/-- Attach a postfix `*` to an atom when the next character is `*`. -/
def splitStar (a : RAtom) : List Char → RItem × List Char
  | [] => (RItem.once a, [])
  | c :: r2 => if c = '*' then (RItem.star a, r2) else (RItem.once a, c :: r2)

/-- Parse the tail of a bracket expression: only `[^/]` is in the modelled
fragment, so after a `[` the parser requires `^/]`. -/
def classTail : List Char → Option (List Char)
  | '^' :: '/' :: ']' :: rest => some rest
  | _ => none

/-- Fuel-indexed parser for the engine model's pattern bodies.  Returns the
item list and whether the body ended with a final `$` anchor. -/
def parseBody : Nat → List Char → Option (List RItem × Bool)
  | 0, _ => none
  | _ + 1, [] => some ([], false)
  | f + 1, c :: rest =>
      if c = '$' ∧ rest = [] then some ([], true)
      else if c = '\\' then
        match rest with
        | [] => none
        | c2 :: rest2 =>
            if c2 ∈ escapables then
              let s := splitStar (RAtom.lit c2) rest2
              (parseBody f s.2).map fun r => (s.1 :: r.1, r.2)
            else none
      else if c = '[' then
        match classTail rest with
        | some rest2 =>
            let s := splitStar RAtom.clsNotSlash rest2
            (parseBody f s.2).map fun r => (s.1 :: r.1, r.2)
        | none => none
      else if c = '.' then
        let s := splitStar RAtom.dot rest
        (parseBody f s.2).map fun r => (s.1 :: r.1, r.2)
      else if c ∈ rejectChars then none
      else
        let s := splitStar (RAtom.lit c) rest
        (parseBody f s.2).map fun r => (s.1 :: r.1, r.2)

/-- Compile a pattern body (after stripping a leading `^`). -/
def compileBody (anchStart : Bool) (ic : Bool) (body : List Char) :
    Except String CompiledRegex :=
  match parseBody (body.length + 1) body with
  | some (items, endAnch) => Except.ok ⟨anchStart, endAnch, items, ic⟩
  | none => Except.error "Invalid regular expression"

/-- The concrete engine model.  Flags: only the empty flag string and `i`
are modelled (the only flag values the library's own calls and the claims
use). -/
def jsEngine (p : List Char) (flags : List Char) : Except String CompiledRegex :=
  if flags = [] ∨ flags = ['i'] then
    if p.head? = some '^' then compileBody true (flags == ['i']) p.tail
    else compileBody false (flags == ['i']) p
  else Except.error "Invalid flags"

/-- JavaScript line terminators, which `.` does not match. -/
def lineTerminators : List Char := ['\n', '\r', ' ', ' ']

/-- Does an atom match one character (under the `i` flag when `ic`)? -/
def atomMatch (ic : Bool) : RAtom → Char → Bool
  | RAtom.lit c, d => if ic then c.toLower == d.toLower else c == d
  | RAtom.clsNotSlash, d => d != '/'
  | RAtom.dot, d => !(d ∈ lineTerminators)

/-- Fuel-indexed full match: do the items consume the input exactly?
Each step shrinks `items.length + s.length`, so the wrapper's fuel
`items.length + s.length + 1` always suffices. -/
def matchItemsF (ic : Bool) : Nat → List RItem → List Char → Bool
  | 0, _, _ => false
  | _ + 1, [], s => s.isEmpty
  | _ + 1, RItem.once _ :: _, [] => false
  | f + 1, RItem.once a :: rest, d :: s =>
      atomMatch ic a d && matchItemsF ic f rest s
  | f + 1, RItem.star a :: rest, s =>
      matchItemsF ic f rest s ||
        (match s with
         | [] => false
         | d :: s2 => atomMatch ic a d && matchItemsF ic f (RItem.star a :: rest) s2)

/-- Full match of an item list against an input. -/
def matchItems (ic : Bool) (items : List RItem) (s : List Char) : Bool :=
  matchItemsF ic (items.length + s.length + 1) items s

/-- Fuel-indexed prefix match: do the items consume some prefix of the
input? -/
def matchPrefF (ic : Bool) : Nat → List RItem → List Char → Bool
  | 0, _, _ => false
  | _ + 1, [], _ => true
  | _ + 1, RItem.once _ :: _, [] => false
  | f + 1, RItem.once a :: rest, d :: s =>
      atomMatch ic a d && matchPrefF ic f rest s
  | f + 1, RItem.star a :: rest, s =>
      matchPrefF ic f rest s ||
        (match s with
         | [] => false
         | d :: s2 => atomMatch ic a d && matchPrefF ic f (RItem.star a :: rest) s2)

/-- Prefix match of an item list against an input. -/
def matchPref (ic : Bool) (items : List RItem) (s : List Char) : Bool :=
  matchPrefF ic (items.length + s.length + 1) items s

/-- `handle.test(input)`: anchored shapes match the whole input, unanchored
shapes search every start position (`.test` is an unanchored search). -/
def rtest (r : CompiledRegex) (s : List Char) : Bool :=
  if r.anchoredStart then
    if r.anchoredEnd then matchItems r.ignoreCase r.items s
    else matchPref r.ignoreCase r.items s
  else
    if r.anchoredEnd then s.tails.any fun t => matchItems r.ignoreCase r.items t
    else s.tails.any fun t => matchPref r.ignoreCase r.items t

example :
    jsEngine ['^', '[', '^', '/', ']', '*', '\\', '.', 'm', 'd', '$'] ['i']
      = Except.ok ⟨true, true,
          [RItem.star RAtom.clsNotSlash, RItem.once (RAtom.lit '.'),
           RItem.once (RAtom.lit 'm'), RItem.once (RAtom.lit 'd')], true⟩ := rfl

example :
    rtest ⟨true, true,
        [RItem.star RAtom.clsNotSlash, RItem.once (RAtom.lit '.'),
         RItem.once (RAtom.lit 'm'), RItem.once (RAtom.lit 'd')], true⟩
      ['r', 'e', 'a', 'd', 'm', 'e', '.', 'm', 'd'] = true := by decide

example :
    rtest ⟨true, true,
        [RItem.star RAtom.clsNotSlash, RItem.once (RAtom.lit '.'),
         RItem.once (RAtom.lit 'm'), RItem.once (RAtom.lit 'd')], true⟩
      ['a', '/', 'r', '.', 'm', 'd'] = false := by decide

/-!
The `SafeRegex` facade from `src/safe-regex.ts`.  The two optional callbacks
are modelled by presence flags in the configuration plus an explicit event
log: each facade operation returns its `SafeRegexResult` together with the
list of `onBlock` invocations `(message, pattern)` it performed, in order.
-/

/-- `SafeRegexConfig` from `src/types.ts`, with the optional `onBlock` /
`onWarning` callbacks replaced by presence flags. -/
structure SafeRegexConfig where
  maxLength : Nat
  timeoutMs : Nat
  maxBacktrackDepth : Nat
  hasOnBlock : Bool
  hasOnWarning : Bool
deriving DecidableEq, Repr

/-- `DEFAULT_CONFIG` from `src/types.ts` (no callbacks configured). -/
def DEFAULT_CONFIG : SafeRegexConfig :=
  ⟨500, 1000, 100000, false, false⟩

/-- `SafeRegexResult` from `src/types.ts`. -/
structure SafeRegexResult where
  safe : Bool
  regex : Option CompiledRegex
  error : Option String
  reason : Option SafeRegexReason
deriving Repr

/-- The `'block'` arm of the private `notify` method: the `onBlock` calls
performed (one when the callback is configured, none otherwise). -/
def notifyBlock (cfg : SafeRegexConfig) (message : String) (pattern : List Char) :
    List (String × List Char) :=
  if cfg.hasOnBlock then [(message, pattern)] else []

/-- The length-rejection message of `create`. -/
def tooLongMsg (n : Nat) : String :=
  "Pattern exceeds maximum length of " ++ toString n

/-- `SafeRegex.create` from `src/safe-regex.ts`, parameterised over the host
engine: length gate, quick safety check, full analysis, native compile.
Returns the result and the `onBlock` log. -/
def create (engine : List Char → List Char → Except String CompiledRegex)
    (cfg : SafeRegexConfig) (pattern : List Char) (flags : List Char) :
    SafeRegexResult × List (String × List Char) :=
  if cfg.maxLength < pattern.length then
    (⟨false, none, some (tooLongMsg cfg.maxLength),
        some SafeRegexReason.pattern_too_long⟩,
      notifyBlock cfg (tooLongMsg cfg.maxLength) pattern)
  else if !quickSafetyCheck pattern && !(analyzePattern pattern).safe then
    (⟨false, none, (analyzePattern pattern).message,
        some (analyzePattern pattern).reason⟩,
      notifyBlock cfg (((analyzePattern pattern).message).getD "Pattern blocked") pattern)
  else
    match engine pattern flags with
    | Except.ok r => (⟨true, some r, none, some SafeRegexReason.ok⟩, [])
    | Except.error e =>
        (⟨false, none, some ("Invalid regex syntax: " ++ e),
            some SafeRegexReason.invalid_syntax⟩, [])

/-- The escape set of `globToRegex`'s first step,
`/[.+^${}()|[\]\\]/g` — note `*` and `?` are NOT in it, but `{` and `}`
ARE. -/
def globMeta : List Char :=
  ['.', '+', '^', '$', '{', '}', '(', ')', '|', '[', ']', '\\']

/-- Step 1 of `globToRegex`: escape regex metacharacters (except the glob
wildcards `*` and `?`). -/
def globEscape : List Char → List Char
  | [] => []
  | c :: rest =>
      if c ∈ globMeta then '\\' :: c :: globEscape rest
      else c :: globEscape rest

/-- Step 2 of `globToRegex`: `.replace(/\*\*/g, '{{GLOBSTAR}}')` —
left-to-right, non-overlapping, the replacement text is not rescanned. -/
def replaceGlobstar : List Char → List Char
  | '*' :: '*' :: rest =>
      '{' :: '{' :: 'G' :: 'L' :: 'O' :: 'B' :: 'S' :: 'T' :: 'A' :: 'R'
        :: '}' :: '}' :: replaceGlobstar rest
  | c :: rest => c :: replaceGlobstar rest
  | [] => []

/-- Step 3 of `globToRegex`: `.replace(/\*/g, '[^/]*')`. -/
def replaceStarChar : List Char → List Char
  | [] => []
  | c :: rest =>
      if c = '*' then '[' :: '^' :: '/' :: ']' :: '*' :: replaceStarChar rest
      else c :: replaceStarChar rest

/-- Step 4 of `globToRegex`: `.replace(/\?/g, '[^/]')`. -/
def replaceQmChar : List Char → List Char
  | [] => []
  | c :: rest =>
      if c = '?' then '[' :: '^' :: '/' :: ']' :: replaceQmChar rest
      else c :: replaceQmChar rest

/-- Step 5 of `globToRegex`: `.replace(/\{\{GLOBSTAR\}\}/g, '.*')`. -/
def replaceGlobstarToken : List Char → List Char
  | '{' :: '{' :: 'G' :: 'L' :: 'O' :: 'B' :: 'S' :: 'T' :: 'A' :: 'R'
      :: '}' :: '}' :: rest => '.' :: '*' :: replaceGlobstarToken rest
  | c :: rest => c :: replaceGlobstarToken rest
  | [] => []

/-- The glob-to-pattern text transform of `SafeRegex.globToRegex` (steps
1–5, before the anchors are added). -/
def globTransform (glob : List Char) : List Char :=
  replaceGlobstarToken (replaceQmChar (replaceStarChar (replaceGlobstar (globEscape glob))))

/-- `SafeRegex.globToRegex` from `src/safe-regex.ts`: transform, wrap in
`^...$`, delegate to `create` with the `i` flag. -/
def globToRegex (engine : List Char → List Char → Except String CompiledRegex)
    (cfg : SafeRegexConfig) (glob : List Char) :
    SafeRegexResult × List (String × List Char) :=
  create engine cfg ('^' :: (globTransform glob ++ ['$'])) ['i']

/-- The escape set `/[.*+?^${}()|[\]\\]/g` shared (textually) by
`fromUserInput` and `escapeForRegex`. -/
def fuMeta : List Char :=
  ['.', '*', '+', '?', '^', '$', '{', '}', '(', ')', '|', '[', ']', '\\']

/-- The inline escape performed by `SafeRegex.fromUserInput`:
`input.replace(/[.*+?^${}()|[\]\\]/g, '\\$&')`. -/
def escapeFU : List Char → List Char
  | [] => []
  | c :: rest =>
      if c ∈ fuMeta then '\\' :: c :: escapeFU rest
      else c :: escapeFU rest

/-- The standalone `escapeForRegex` function from `src/safe-regex.ts`:
`input.replace(/[.*+?^${}()|[\]\\]/g, '\\$&')`. -/
def escapeForRegex : List Char → List Char
  | [] => []
  | c :: rest =>
      if c ∈ fuMeta then '\\' :: c :: escapeForRegex rest
      else c :: escapeForRegex rest

/-- `SafeRegex.fromUserInput` from `src/safe-regex.ts`: escape, then
delegate to `create` with the `i` flag. -/
def fromUserInput (engine : List Char → List Char → Except String CompiledRegex)
    (cfg : SafeRegexConfig) (input : List Char) :
    SafeRegexResult × List (String × List Char) :=
  create engine cfg (escapeFU input) ['i']

example :
    (create jsEngine DEFAULT_CONFIG ['^', '(', 'a', '+', ')', '+', '$'] []).1.reason
      = some SafeRegexReason.nested_quantifiers := by decide

example :
    globTransform ['*', '.', 'm', 'd']
      = ['[', '^', '/', ']', '*', '\\', '.', 'm', 'd'] := by decide

example :
    globTransform ['*', '*', '/', '*', '.', 'm', 'd']
      = ['.', '*', '/', '[', '^', '/', ']', '*', '\\', '.', 'm', 'd'] := by decide

example :
    (globToRegex jsEngine DEFAULT_CONFIG ['*', '.', 'm', 'd']).1.safe = true := by decide

example :
    escapeForRegex ['a', '.', 'b', '*', 'c']
      = ['a', '\\', '.', 'b', '\\', '*', 'c'] := by decide

/-- The two escape transforms (inline in `fromUserInput`, standalone in
`escapeForRegex`) are the same character-by-character replacement. -/
theorem escapeFU_eq_escapeForRegex (T : List Char) : escapeFU T = escapeForRegex T := by
  induction T with
  | nil => rfl
  | cons c t ih => simp only [escapeFU, escapeForRegex, ih]

/-- Claim C9: for every pattern, the verdict of `analyzePattern` carries one
of the reasons `ok`, `nested_quantifiers`, `overlapping_alternation`,
`catastrophic_backtracking` (never `pattern_too_long`, `invalid_syntax` or
`execution_timeout`), and the verdict is safe exactly when the reason is
`ok`. -/
theorem claim9_analyzer_verdict (p : List Char) :
    ((analyzePattern p).reason = SafeRegexReason.ok ∨
      (analyzePattern p).reason = SafeRegexReason.nested_quantifiers ∨
      (analyzePattern p).reason = SafeRegexReason.overlapping_alternation ∨
      (analyzePattern p).reason = SafeRegexReason.catastrophic_backtracking) ∧
    ((analyzePattern p).safe = true ↔ (analyzePattern p).reason = SafeRegexReason.ok) := by
  unfold analyzePattern
  repeat' split
  all_goals simp

/-- Claim C10: `fromUserInput` produces exactly the result of `create` on
`escapeForRegex` of the input with the `i` flag — the inline escape of
`fromUserInput` coincides with the standalone `escapeForRegex` transform. -/
theorem claim10_escape_equivalence
    (engine : List Char → List Char → Except String CompiledRegex)
    (cfg : SafeRegexConfig) (T : List Char) :
    fromUserInput engine cfg T = create engine cfg (escapeForRegex T) ['i'] := by
  rw [fromUserInput, escapeFU_eq_escapeForRegex]

/-- Claim C3, counterexample: the first danger signature
`/\([^)]*[+*][^)]*\)[+*]/` does NOT flag `(a{1,})+` — the group body
`a{1,}` contains no literal `+`/`*` character — and no other check flags it
either, so `analyzePattern` reports it safe, contradicting the claimed
`safe:false` / `nested_quantifiers` verdict for that pattern. -/
theorem claim3_cex :
    (analyzePattern ['(', 'a', '{', '1', ',', '}', ')', '+']).safe = true ∧
    (analyzePattern ['(', 'a', '{', '1', ',', '}', ')', '+']).reason
      = SafeRegexReason.ok := by decide

/-- Claim C3 (amended): the first danger signature flags a group containing
a literal `+`/`*` immediately followed by a quantifier character — covering
`(a+)+` and `(a*)*`, and `^(a+)+$` through `create` under the default
configuration — but `(a{1,})+` is not matched by it (nor by any other
check): `analyzePattern` returns safe for it. -/
theorem claim3_nested_quantifier_signature :
    ((analyzePattern ['(', 'a', '+', ')', '+']).safe = false ∧
      (analyzePattern ['(', 'a', '+', ')', '+']).reason
        = SafeRegexReason.nested_quantifiers) ∧
    ((analyzePattern ['(', 'a', '*', ')', '*']).safe = false ∧
      (analyzePattern ['(', 'a', '*', ')', '*']).reason
        = SafeRegexReason.nested_quantifiers) ∧
    ((create jsEngine DEFAULT_CONFIG ['^', '(', 'a', '+', ')', '+', '$'] []).1.safe = false ∧
      (create jsEngine DEFAULT_CONFIG ['^', '(', 'a', '+', ')', '+', '$'] []).1.reason
        = some SafeRegexReason.nested_quantifiers) ∧
    (analyzePattern ['(', 'a', '{', '1', ',', '}', ')', '+']).safe = true := by decide

/-- Claim C6 (code bug): `globToRegex` escapes `{` and `}` in its first
step, so the brace alternative `{ts,tsx}` is matched as literal brace text,
not as alternation: the compiled pattern for `*.{ts,tsx}` does not match
`file.tsx` but does match the literal string `file.{ts,tsx}` — contradicting
the repository's own documentation (`*.{ts,tsx}` matches `file.tsx`). -/
theorem claim6_brace_divergence :
    (globToRegex jsEngine DEFAULT_CONFIG
        ['*', '.', '{', 't', 's', ',', 't', 's', 'x', '}']).1.safe = true ∧
    ((globToRegex jsEngine DEFAULT_CONFIG
        ['*', '.', '{', 't', 's', ',', 't', 's', 'x', '}']).1.regex.map fun r =>
      rtest r ['f', 'i', 'l', 'e', '.', 't', 's', 'x']) = some false ∧
    ((globToRegex jsEngine DEFAULT_CONFIG
        ['*', '.', '{', 't', 's', ',', 't', 's', 'x', '}']).1.regex.map fun r =>
      rtest r ['f', 'i', 'l', 'e', '.', '{', 't', 's', ',', 't', 's', 'x', '}'])
      = some true := by decide

/-- Claim C7: the glob round trip — `globToRegex('*.md')` is safe and its
compiled pattern matches `readme.md` but neither `readme.txt` nor
`a/readme.md`; `globToRegex('**/*.md')` is safe and its compiled pattern
matches `a/b/readme.md`. -/
theorem claim7_glob_round_trip :
    (globToRegex jsEngine DEFAULT_CONFIG ['*', '.', 'm', 'd']).1.safe = true ∧
    ((globToRegex jsEngine DEFAULT_CONFIG ['*', '.', 'm', 'd']).1.regex.map fun r =>
      rtest r ['r', 'e', 'a', 'd', 'm', 'e', '.', 'm', 'd']) = some true ∧
    ((globToRegex jsEngine DEFAULT_CONFIG ['*', '.', 'm', 'd']).1.regex.map fun r =>
      rtest r ['r', 'e', 'a', 'd', 'm', 'e', '.', 't', 'x', 't']) = some false ∧
    ((globToRegex jsEngine DEFAULT_CONFIG ['*', '.', 'm', 'd']).1.regex.map fun r =>
      rtest r ['a', '/', 'r', 'e', 'a', 'd', 'm', 'e', '.', 'm', 'd']) = some false ∧
    (globToRegex jsEngine DEFAULT_CONFIG ['*', '*', '/', '*', '.', 'm', 'd']).1.safe = true ∧
    ((globToRegex jsEngine DEFAULT_CONFIG
        ['*', '*', '/', '*', '.', 'm', 'd']).1.regex.map fun r =>
      rtest r ['a', '/', 'b', '/', 'r', 'e', 'a', 'd', 'm', 'e', '.', 'm', 'd'])
      = some true := by decide

/-!
Structural lemmas about the signature scanners: each successful match pins
down a two-character window in the pattern (a closing delimiter directly
followed by a quantifier, or symmetrically).  These windows are what the
soundness arguments about `quickSafetyCheck` and about escaped text use.
-/

/-- A successful `headIsQuant` exposes the head. -/
theorem headIsQuant_shape (l : List Char) (h : headIsQuant l = true) :
    ∃ q v, l = q :: v ∧ (q = '+' ∨ q = '*') := by
  cases l with
  | nil => simp [headIsQuant] at h
  | cons q v =>
    simp only [headIsQuant, Bool.or_eq_true, beq_iff_eq] at h
    exact ⟨q, v, rfl, h⟩

/-- A successful `sig1Inner` scan contains `)` directly followed by a
quantifier. -/
theorem sig1Inner_pair (l : List Char) :
    ∀ b, sig1Inner l b = true →
      ∃ u q v, l = u ++ ')' :: q :: v ∧ (q = '+' ∨ q = '*') := by
  induction l with
  | nil => intro b h; simp [sig1Inner] at h
  | cons c rest ih =>
    intro b h
    rw [sig1Inner] at h
    by_cases hc : c = ')'
    · rw [if_pos hc] at h
      rw [Bool.and_eq_true] at h
      obtain ⟨hb, hq⟩ := h
      obtain ⟨q, v, hrest, hqv⟩ := headIsQuant_shape rest hq
      exact ⟨[], q, v, by rw [hc, hrest]; rfl, hqv⟩
    · rw [if_neg hc] at h
      obtain ⟨u, q, v, he, hqv⟩ := ih _ h
      exact ⟨c :: u, q, v, by rw [he]; rfl, hqv⟩

/-- A successful `sig1` match contains `)` directly followed by a
quantifier. -/
theorem sig1_pair (s : List Char) (h : sig1 s = true) :
    ∃ u q v, s = u ++ ')' :: q :: v ∧ (q = '+' ∨ q = '*') := by
  induction s with
  | nil => simp [sig1] at h
  | cons c rest ih =>
    rw [sig1] at h
    rw [Bool.or_eq_true] at h
    rcases h with h1 | h2
    · by_cases hc : c = '('
      · rw [if_pos hc] at h1
        obtain ⟨u, q, v, he, hqv⟩ := sig1Inner_pair rest _ h1
        exact ⟨c :: u, q, v, by rw [he]; rfl, hqv⟩
      · rw [if_neg hc] at h1; exact absurd h1 (by simp)
    · obtain ⟨u, q, v, he, hqv⟩ := ih h2
      exact ⟨c :: u, q, v, by rw [he]; rfl, hqv⟩

/-- A successful `sig2Inner` scan contains `)` directly followed by a
quantifier. -/
theorem sig2Inner_pair (l : List Char) :
    ∀ b, sig2Inner l b = true →
      ∃ u q v, l = u ++ ')' :: q :: v ∧ (q = '+' ∨ q = '*') := by
  induction l with
  | nil => intro b h; simp [sig2Inner] at h
  | cons c rest ih =>
    intro b h
    rw [sig2Inner] at h
    by_cases hc : c = ')'
    · rw [if_pos hc] at h
      rw [Bool.and_eq_true] at h
      obtain ⟨hb, hq⟩ := h
      obtain ⟨q, v, hrest, hqv⟩ := headIsQuant_shape rest hq
      exact ⟨[], q, v, by rw [hc, hrest]; rfl, hqv⟩
    · rw [if_neg hc] at h
      obtain ⟨u, q, v, he, hqv⟩ := ih _ h
      exact ⟨c :: u, q, v, by rw [he]; rfl, hqv⟩

/-- A successful `sig2` match contains `)` directly followed by a
quantifier. -/
theorem sig2_pair (s : List Char) (h : sig2 s = true) :
    ∃ u q v, s = u ++ ')' :: q :: v ∧ (q = '+' ∨ q = '*') := by
  induction s with
  | nil => simp [sig2] at h
  | cons c rest ih =>
    rw [sig2] at h
    rw [Bool.or_eq_true] at h
    rcases h with h1 | h2
    · by_cases hc : c = '('
      · rw [if_pos hc] at h1
        obtain ⟨u, q, v, he, hqv⟩ := sig2Inner_pair rest _ h1
        exact ⟨c :: u, q, v, by rw [he]; rfl, hqv⟩
      · rw [if_neg hc] at h1; exact absurd h1 (by simp)
    · obtain ⟨u, q, v, he, hqv⟩ := ih h2
      exact ⟨c :: u, q, v, by rw [he]; rfl, hqv⟩

/-- A successful `sig3Brace` scan starts with `{`. -/
theorem sig3Brace_shape (l : List Char) (h : sig3Brace l = true) :
    ∃ v, l = '{' :: v := by
  cases l with
  | nil => simp [sig3Brace] at h
  | cons c rest =>
    simp only [sig3Brace, Bool.and_eq_true, beq_iff_eq] at h
    exact ⟨rest, by rw [h.1]⟩

/-- A successful `sig3Inner` scan contains `)` directly followed by `{`. -/
theorem sig3Inner_pair (l : List Char) :
    ∀ n, sig3Inner l n = true → ∃ u v, l = u ++ ')' :: '{' :: v := by
  induction l with
  | nil => intro n h; simp [sig3Inner] at h
  | cons c rest ih =>
    intro n h
    rw [sig3Inner] at h
    by_cases hc : c = ')'
    · rw [if_pos hc] at h
      rw [Bool.and_eq_true] at h
      obtain ⟨_, hb⟩ := h
      obtain ⟨v, hrest⟩ := sig3Brace_shape rest hb
      exact ⟨[], v, by rw [hc, hrest]; rfl⟩
    · rw [if_neg hc] at h
      obtain ⟨u, v, he⟩ := ih _ h
      exact ⟨c :: u, v, by rw [he]; rfl⟩

/-- A successful `sig3` match contains `)` directly followed by `{`. -/
theorem sig3_pair (s : List Char) (h : sig3 s = true) :
    ∃ u v, s = u ++ ')' :: '{' :: v := by
  induction s with
  | nil => simp [sig3] at h
  | cons c rest ih =>
    rw [sig3] at h
    rw [Bool.or_eq_true] at h
    rcases h with h1 | h2
    · by_cases hc : c = '('
      · rw [if_pos hc] at h1
        obtain ⟨u, v, he⟩ := sig3Inner_pair rest _ h1
        exact ⟨c :: u, v, by rw [he]; rfl⟩
      · rw [if_neg hc] at h1; exact absurd h1 (by simp)
    · obtain ⟨u, v, he⟩ := ih h2
      exact ⟨c :: u, v, by rw [he]; rfl⟩

/-- A successful `sig4Inner2` scan contains a quantifier directly followed
by `)`, or starts with `)` while the carried flag is already true. -/
theorem sig4Inner2_pair (l : List Char) :
    ∀ b, sig4Inner2 l b = true →
      (∃ u q v, l = u ++ q :: ')' :: v ∧ (q = '+' ∨ q = '*')) ∨
      (b = true ∧ ∃ v, l = ')' :: v) := by
  induction l with
  | nil => intro b h; simp [sig4Inner2] at h
  | cons c rest ih =>
    intro b h
    rw [sig4Inner2] at h
    by_cases hc : c = ')'
    · rw [if_pos hc] at h
      exact Or.inr ⟨h, rest, by rw [hc]⟩
    · rw [if_neg hc] at h
      rcases ih _ h with ⟨u, q, v, he, hqv⟩ | ⟨hb, v, he⟩
      · exact Or.inl ⟨c :: u, q, v, by rw [he]; rfl, hqv⟩
      · refine Or.inl ⟨[], c, v, by rw [he]; rfl, ?_⟩
        simpa using hb

/-- A successful `sig4Inner1` scan contains a quantifier directly followed
by `)`. -/
theorem sig4Inner1_pair (l : List Char) :
    ∀ b, sig4Inner1 l b = true →
      ∃ u q v, l = u ++ q :: ')' :: v ∧ (q = '+' ∨ q = '*') := by
  induction l with
  | nil => intro b h; simp [sig4Inner1] at h
  | cons c rest ih =>
    intro b h
    rw [sig4Inner1] at h
    by_cases hc : c = ')'
    · rw [if_pos hc] at h
      rw [Bool.and_eq_true] at h
      obtain ⟨_, h2⟩ := h
      rcases sig4Inner2_pair rest false h2 with ⟨u, q, v, he, hqv⟩ | ⟨hb, _⟩
      · exact ⟨c :: u, q, v, by rw [he]; rfl, hqv⟩
      · exact absurd hb (by simp)
    · rw [if_neg hc] at h
      rcases ih _ h with ⟨u, q, v, he, hqv⟩
      exact ⟨c :: u, q, v, by rw [he]; rfl, hqv⟩

/-- A successful `sig4Second` scan contains a quantifier directly followed
by `)`. -/
theorem sig4Second_pair (l : List Char) (h : sig4Second l = true) :
    ∃ u q v, l = u ++ q :: ')' :: v ∧ (q = '+' ∨ q = '*') := by
  induction l with
  | nil => simp [sig4Second] at h
  | cons c rest ih =>
    rw [sig4Second] at h
    by_cases hc : c = ')'
    · rw [if_pos hc] at h; exact absurd h (by simp)
    · rw [if_neg hc] at h
      rw [Bool.or_eq_true] at h
      rcases h with h1 | h2
      · by_cases hc2 : c = '('
        · rw [if_pos hc2] at h1
          obtain ⟨u, q, v, he, hqv⟩ := sig4Inner1_pair rest _ h1
          exact ⟨c :: u, q, v, by rw [he]; rfl, hqv⟩
        · rw [if_neg hc2] at h1; exact absurd h1 (by simp)
      · obtain ⟨u, q, v, he, hqv⟩ := ih h2
        exact ⟨c :: u, q, v, by rw [he]; rfl, hqv⟩

/-- A successful `sig4` match contains a quantifier directly followed by
`)`. -/
theorem sig4_pair (s : List Char) (h : sig4 s = true) :
    ∃ u q v, s = u ++ q :: ')' :: v ∧ (q = '+' ∨ q = '*') := by
  induction s with
  | nil => simp [sig4] at h
  | cons c rest ih =>
    rw [sig4] at h
    rw [Bool.or_eq_true] at h
    rcases h with h1 | h2
    · by_cases hc : c = '('
      · rw [if_pos hc] at h1
        obtain ⟨u, q, v, he, hqv⟩ := sig4Second_pair rest h1
        exact ⟨c :: u, q, v, by rw [he]; rfl, hqv⟩
      · rw [if_neg hc] at h1; exact absurd h1 (by simp)
    · obtain ⟨u, q, v, he, hqv⟩ := ih h2
      exact ⟨c :: u, q, v, by rw [he]; rfl, hqv⟩

/-- A successful `sig5Q` scan starts with a quantifier followed by `[`. -/
theorem sig5Q_shape (l : List Char) (h : sig5Q l = true) :
    ∃ q v, l = q :: '[' :: v ∧ (q = '+' ∨ q = '*') := by
  match l with
  | [] => simp [sig5Q] at h
  | [q] => simp [sig5Q] at h
  | q :: c :: rest =>
    by_cases hc : c = '['
    · subst hc
      simp only [sig5Q, Bool.and_eq_true, Bool.or_eq_true, beq_iff_eq] at h
      exact ⟨q, rest, rfl, h.1⟩
    · exfalso
      have : sig5Q (q :: c :: rest) = false := by
        rw [sig5Q.eq_def]
        split
        · rename_i heq; cases heq; simp at hc
        · rfl
      rw [this] at h; exact absurd h (by simp)

/-- A successful `sig5A` scan contains `]` directly followed by a
quantifier. -/
theorem sig5A_pair (l : List Char) :
    ∀ n, sig5A l n = true →
      ∃ u q v, l = u ++ ']' :: q :: v ∧ (q = '+' ∨ q = '*') := by
  induction l with
  | nil => intro n h; simp [sig5A] at h
  | cons c rest ih =>
    intro n h
    rw [sig5A] at h
    by_cases hc : c = ']'
    · rw [if_pos hc] at h
      rw [Bool.and_eq_true] at h
      obtain ⟨_, hq⟩ := h
      obtain ⟨q, v, hrest, hqv⟩ := sig5Q_shape rest hq
      exact ⟨[], q, '[' :: v, by rw [hc, hrest]; rfl, hqv⟩
    · rw [if_neg hc] at h
      obtain ⟨u, q, v, he, hqv⟩ := ih _ h
      exact ⟨c :: u, q, v, by rw [he]; rfl, hqv⟩

/-- A successful `sig5` match contains `]` directly followed by a
quantifier. -/
theorem sig5_pair (s : List Char) (h : sig5 s = true) :
    ∃ u q v, s = u ++ ']' :: q :: v ∧ (q = '+' ∨ q = '*') := by
  induction s with
  | nil => simp [sig5] at h
  | cons c rest ih =>
    rw [sig5] at h
    rw [Bool.or_eq_true] at h
    rcases h with h1 | h2
    · by_cases hc : c = '['
      · rw [if_pos hc] at h1
        obtain ⟨u, q, v, he, hqv⟩ := sig5A_pair rest _ h1
        exact ⟨c :: u, q, v, by rw [he]; rfl, hqv⟩
      · rw [if_neg hc] at h1; exact absurd h1 (by simp)
    · obtain ⟨u, q, v, he, hqv⟩ := ih h2
      exact ⟨c :: u, q, v, by rw [he]; rfl, hqv⟩

/-- If the pattern contains no quantifier character, the nesting counter
never records a depth. -/
theorem cqnAux_noQuant (l : List Char)
    (hall : ∀ c ∈ l, ¬(c = '+' ∨ c = '*' ∨ c = '?')) :
    ∀ prev inG maxD, cqnAux l prev inG maxD = maxD := by
  induction l with
  | nil => intro prev inG maxD; rfl
  | cons c rest ih =>
    intro prev inG maxD
    have hc : ¬(c = '+' ∨ c = '*' ∨ c = '?') := hall c (by simp)
    have hrest : ∀ x ∈ rest, ¬(x = '+' ∨ x = '*' ∨ x = '?') :=
      fun x hx => hall x (by simp [hx])
    rw [cqnAux]
    by_cases h1 : c = '(' ∧ prev ≠ some '\\'
    · rw [if_pos h1]; exact ih hrest _ _ _
    · rw [if_neg h1]
      by_cases h2 : c = ')' ∧ prev ≠ some '\\'
      · rw [if_pos h2]; exact ih hrest _ _ _
      · rw [if_neg h2]
        have h3 : ¬((c = '+' ∨ c = '*' ∨ c = '?') ∧ prev ≠ some '\\' ∧ 0 < inG) :=
          fun hx => hc hx.1
        rw [if_neg h3]; exact ih hrest _ _ _

/-- If the pattern contains no `(`, the group depth stays zero and the
nesting counter never records a depth. -/
theorem cqnAux_noParen (l : List Char) (hall : ∀ c ∈ l, c ≠ '(') :
    ∀ prev maxD, cqnAux l prev 0 maxD = maxD := by
  induction l with
  | nil => intro prev maxD; rfl
  | cons c rest ih =>
    intro prev maxD
    have hc : c ≠ '(' := hall c (by simp)
    have hrest : ∀ x ∈ rest, x ≠ '(' := fun x hx => hall x (by simp [hx])
    rw [cqnAux]
    have h1 : ¬(c = '(' ∧ prev ≠ some '\\') := fun hx => hc hx.1
    rw [if_neg h1]
    by_cases h2 : c = ')' ∧ prev ≠ some '\\'
    · rw [if_pos h2]; exact ih hrest _ _
    · rw [if_neg h2]
      have h3 : ¬((c = '+' ∨ c = '*' ∨ c = '?') ∧ prev ≠ some '\\' ∧ 0 < (0 : Nat)) :=
        fun hx => by simpa using hx.2.2
      rw [if_neg h3]; exact ih hrest _ _

/-- Every character accepted by `anchoredRest` is `$` or an `okBody`
character; in particular none is a quantifier or a group delimiter. -/
theorem anchoredRest_chars (l : List Char) (h : anchoredRest l = true) :
    ∀ x ∈ l, ¬(x = '+' ∨ x = '*' ∨ x = '?' ∨ x = '(' ∨ x = ')') := by
  induction l with
  | nil => simp
  | cons c rest ih =>
    intro x hx
    cases rest with
    | nil =>
      have hc : c = '$' := by simpa [anchoredRest] using h
      simp only [List.mem_singleton] at hx
      subst hx; subst hc; decide
    | cons d rest2 =>
      have h2 : okBody c = true ∧ anchoredRest (d :: rest2) = true := by
        simpa [anchoredRest] using h
      rcases List.mem_cons.mp hx with hx | hx
      · subst hx
        revert h2
        simp only [okBody, Bool.not_eq_true', Bool.or_eq_false_iff, beq_eq_false_iff_ne]
        rintro ⟨⟨⟨⟨⟨n1, n2⟩, n3⟩, n4⟩, n5⟩, _⟩
        rintro (rfl | rfl | rfl | rfl | rfl) <;> simp_all
      · exact ih h2.2 x hx

/-- Every character of a pattern accepted by `anchoredSimple` avoids
quantifiers and group delimiters. -/
theorem anchoredSimple_chars (p : List Char) (h : anchoredSimple p = true) :
    ∀ x ∈ p, ¬(x = '+' ∨ x = '*' ∨ x = '?' ∨ x = '(' ∨ x = ')') := by
  match p with
  | [] => simp [anchoredSimple] at h
  | [c] =>
    exfalso
    have : anchoredSimple [c] = false := by
      rw [anchoredSimple.eq_def]
      split
      · rename_i heq; cases heq
      · rfl
    rw [this] at h; exact absurd h (by simp)
  | a :: b :: rest =>
    by_cases ha : a = '^'
    · subst ha
      have h2 : okBody b = true ∧ anchoredRest rest = true := by
        simpa [anchoredSimple] using h
      intro x hx
      rcases List.mem_cons.mp hx with hx | hx
      · subst hx; decide
      rcases List.mem_cons.mp hx with hx | hx
      · subst hx
        revert h2
        simp only [okBody, Bool.not_eq_true', Bool.or_eq_false_iff, beq_eq_false_iff_ne]
        rintro ⟨⟨⟨⟨⟨n1, n2⟩, n3⟩, n4⟩, n5⟩, _⟩
        rintro (rfl | rfl | rfl | rfl | rfl) <;> simp_all
      · exact anchoredRest_chars rest h2.2 x hx
    · exfalso
      have : anchoredSimple (a :: b :: rest) = false := by
        rw [anchoredSimple.eq_def]
        split
        · rename_i heq; cases heq; simp at ha
        · rfl
      rw [this] at h; exact absurd h (by simp)

/-- A quantifier-free pattern defeats signatures 1, 2, 4, 5 and the depth
check (each needs a literal `+` or `*`, or an unescaped quantifier). -/
theorem noQuant_sigs (p : List Char)
    (hq : ∀ c ∈ p, ¬(c = '+' ∨ c = '*' ∨ c = '?')) :
    sig1 p = false ∧ sig2 p = false ∧ sig4 p = false ∧ sig5 p = false ∧
      countQuantifierNesting p = 0 := by
  refine ⟨?_, ?_, ?_, ?_, cqnAux_noQuant p hq none 0 0⟩
  · cases hb : sig1 p
    · rfl
    · obtain ⟨u, q, v, he, hqv⟩ := sig1_pair p hb
      have hm : q ∈ p := by rw [he]; simp
      exact absurd (hqv.imp id Or.inl) (hq q hm)
  · cases hb : sig2 p
    · rfl
    · obtain ⟨u, q, v, he, hqv⟩ := sig2_pair p hb
      have hm : q ∈ p := by rw [he]; simp
      exact absurd (hqv.imp id Or.inl) (hq q hm)
  · cases hb : sig4 p
    · rfl
    · obtain ⟨u, q, v, he, hqv⟩ := sig4_pair p hb
      have hm : q ∈ p := by rw [he]; simp
      exact absurd (hqv.imp id Or.inl) (hq q hm)
  · cases hb : sig5 p
    · rfl
    · obtain ⟨u, q, v, he, hqv⟩ := sig5_pair p hb
      have hm : q ∈ p := by rw [he]; simp
      exact absurd (hqv.imp id Or.inl) (hq q hm)

/-- A parenthesis-free pattern defeats signatures 1, 2, 3, 4 and the depth
check (each needs a `)`, or an unescaped `(`). -/
theorem noParen_sigs (p : List Char)
    (hp : ∀ c ∈ p, ¬(c = '(' ∨ c = ')')) :
    sig1 p = false ∧ sig2 p = false ∧ sig3 p = false ∧ sig4 p = false ∧
      countQuantifierNesting p = 0 := by
  have hopen : ∀ c ∈ p, c ≠ '(' := fun c hc h => hp c hc (Or.inl h)
  refine ⟨?_, ?_, ?_, ?_, cqnAux_noParen p hopen none 0⟩
  · cases hb : sig1 p
    · rfl
    · obtain ⟨u, q, v, he, _⟩ := sig1_pair p hb
      have hm : ')' ∈ p := by rw [he]; simp
      exact absurd (Or.inr rfl) (hp ')' hm)
  · cases hb : sig2 p
    · rfl
    · obtain ⟨u, q, v, he, _⟩ := sig2_pair p hb
      have hm : ')' ∈ p := by rw [he]; simp
      exact absurd (Or.inr rfl) (hp ')' hm)
  · cases hb : sig3 p
    · rfl
    · obtain ⟨u, v, he⟩ := sig3_pair p hb
      have hm : ')' ∈ p := by rw [he]; simp
      exact absurd (Or.inr rfl) (hp ')' hm)
  · cases hb : sig4 p
    · rfl
    · obtain ⟨u, q, v, he, _⟩ := sig4_pair p hb
      have hm : ')' ∈ p := by rw [he]; simp
      exact absurd (Or.inr rfl) (hp ')' hm)

/-- Claim C1, counterexample: `[a]+[b]+` has no group delimiter, so
`quickSafetyCheck` classifies it as obviously safe, yet the full analyzer
rejects it through the fifth danger signature (adjacent quantified
character classes) — refuting "the pre-check never classifies a pattern
that any of the five danger signatures would reject as obviously safe". -/
theorem claim1_cex :
    quickSafetyCheck ['[', 'a', ']', '+', '[', 'b', ']', '+'] = true ∧
    (analyzePattern ['[', 'a', ']', '+', '[', 'b', ']', '+']).safe = false ∧
    (analyzePattern ['[', 'a', ']', '+', '[', 'b', ']', '+']).reason
      = SafeRegexReason.catastrophic_backtracking := by decide

/-- Claim C1 (amended): when `quickSafetyCheck` returns true, the full
analyzer either agrees (`safe: true`) or rejects with reason
`catastrophic_backtracking` — a quantifier-free pattern can still hit the
repeated-group signature, and a parenthesis-free pattern the
adjacent-quantified-classes signature, but no pattern passing the pre-check
is rejected as `nested_quantifiers` or `overlapping_alternation`. -/
theorem claim1_precheck_soundness (p : List Char)
    (h : quickSafetyCheck p = true) :
    (analyzePattern p).safe = true ∨
    (analyzePattern p).reason = SafeRegexReason.catastrophic_backtracking := by
  have h' : hasQuantChar p = false ∨ hasParenChar p = false ∨
      anchoredSimple p = true := by
    rw [quickSafetyCheck, Bool.or_eq_true, Bool.or_eq_true] at h
    rcases h with (h | h) | h
    · exact Or.inl (by simpa using h)
    · exact Or.inr (Or.inl (by simpa using h))
    · exact Or.inr (Or.inr h)
  rcases h' with hA | hB | hC
  · have hq : ∀ c ∈ p, ¬(c = '+' ∨ c = '*' ∨ c = '?') := by
      intro c hc hx
      have := List.any_eq_false.mp hA c hc
      simp at this
      rcases hx with h | h | h <;> simp_all
    obtain ⟨h1, h2, h4, h5, hcq⟩ := noQuant_sigs p hq
    by_cases h3 : sig3 p = true
    · exact Or.inr (by simp [analyzePattern, h1, h2, h3])
    · have h3f : sig3 p = false := by simpa using h3
      exact Or.inl (by simp [analyzePattern, h1, h2, h3f, h4, h5, hcq])
  · have hp : ∀ c ∈ p, ¬(c = '(' ∨ c = ')') := by
      intro c hc hx
      have := List.any_eq_false.mp hB c hc
      simp at this
      rcases hx with h | h <;> simp_all
    obtain ⟨h1, h2, h3, h4, hcq⟩ := noParen_sigs p hp
    by_cases h5 : sig5 p = true
    · exact Or.inr (by simp [analyzePattern, h1, h2, h3, h4, h5])
    · have h5f : sig5 p = false := by simpa using h5
      exact Or.inl (by simp [analyzePattern, h1, h2, h3, h4, h5f, hcq])
  · have hchars := anchoredSimple_chars p hC
    have hq : ∀ c ∈ p, ¬(c = '+' ∨ c = '*' ∨ c = '?') := by
      intro c hc hx
      exact hchars c hc (by tauto)
    have hp : ∀ c ∈ p, ¬(c = '(' ∨ c = ')') := by
      intro c hc hx
      exact hchars c hc (by tauto)
    obtain ⟨h1, h2, h3, h4, hcq⟩ := noParen_sigs p hp
    obtain ⟨_, _, _, h5, _⟩ := noQuant_sigs p hq
    exact Or.inl (by simp [analyzePattern, h1, h2, h3, h4, h5, hcq])

/-- Witness for the amended claim C1 at `^ok$` (an anchored literal that
passes the pre-check and the analyzer). -/
theorem claim1_witness :
    quickSafetyCheck ['^', 'o', 'k', '$'] = true ∧
    ((analyzePattern ['^', 'o', 'k', '$']).safe = true ∨
      (analyzePattern ['^', 'o', 'k', '$']).reason
        = SafeRegexReason.catastrophic_backtracking) :=
  ⟨by decide, claim1_precheck_soundness ['^', 'o', 'k', '$'] (by decide)⟩

/-- Claim C4: the length gate of `create`.  Any pattern longer than
`maxLength` is rejected as `pattern_too_long` with exactly one `onBlock`
call carrying the raw pattern (when the callback is configured), regardless
of content; a pattern of exactly `maxLength` characters that passes the
safety checks and compiles is accepted. -/
theorem claim4_length_gate
    (engine : List Char → List Char → Except String CompiledRegex)
    (cfg : SafeRegexConfig) (P flags : List Char) :
    (cfg.maxLength < P.length →
      (create engine cfg P flags).1.safe = false ∧
      (create engine cfg P flags).1.reason = some SafeRegexReason.pattern_too_long ∧
      (cfg.hasOnBlock = true →
        (create engine cfg P flags).2 = [(tooLongMsg cfg.maxLength, P)])) ∧
    (P.length = cfg.maxLength →
      (quickSafetyCheck P = true ∨ (analyzePattern P).safe = true) →
      ∀ r, engine P flags = Except.ok r →
        (create engine cfg P flags).1.safe = true ∧
        (create engine cfg P flags).1.regex = some r ∧
        (create engine cfg P flags).1.reason = some SafeRegexReason.ok ∧
        (create engine cfg P flags).2 = []) := by
  constructor
  · intro hlen
    rw [create, if_pos hlen]
    exact ⟨rfl, rfl, fun hb => by simp [notifyBlock, hb]⟩
  · intro hlen hsafe r hr
    have hnot : ¬(cfg.maxLength < P.length) := by omega
    have hcond : (!quickSafetyCheck P && !(analyzePattern P).safe) = false := by
      rcases hsafe with h | h <;> simp [h]
    rw [create, if_neg hnot]
    simp [hcond, hr]

set_option maxRecDepth 8000 in
/-- Witness for claim C4 under a configuration with `onBlock` set: 501 `a`s
are rejected with one `onBlock` call, 500 `a`s are accepted. -/
theorem claim4_witness :
    ((create jsEngine ⟨500, 1000, 100000, true, false⟩
        (List.replicate 501 'a') []).1.reason = some SafeRegexReason.pattern_too_long ∧
      (create jsEngine ⟨500, 1000, 100000, true, false⟩
        (List.replicate 501 'a') []).2 = [(tooLongMsg 500, List.replicate 501 'a')]) ∧
    (create jsEngine ⟨500, 1000, 100000, true, false⟩
        (List.replicate 500 'a') []).1.safe = true := by
  constructor
  · have h := (claim4_length_gate jsEngine ⟨500, 1000, 100000, true, false⟩
      (List.replicate 501 'a') []).1 (by simp)
    exact ⟨h.2.1, h.2.2 rfl⟩
  · have h := (claim4_length_gate jsEngine ⟨500, 1000, 100000, true, false⟩
      (List.replicate 500 'a') []).2 (by simp) (Or.inl (by decide))
      ⟨false, false, List.replicate 500 (RItem.once (RAtom.lit 'a')), false⟩ rfl
    exact h.1

/-- Claim C8: callback discipline of `create`.  At most one `onBlock` call
per invocation; none on the success branch; a non-empty log only arises
from the length gate or an analyzer rejection; and a native-compile failure
yields `invalid_syntax` wrapping the engine's error text with no `onBlock`
call. -/
theorem claim8_callback_discipline
    (engine : List Char → List Char → Except String CompiledRegex)
    (cfg : SafeRegexConfig) (P flags : List Char) :
    ((create engine cfg P flags).2.length ≤ 1) ∧
    ((create engine cfg P flags).1.safe = true → (create engine cfg P flags).2 = []) ∧
    ((create engine cfg P flags).2 ≠ [] →
      (create engine cfg P flags).1.reason = some SafeRegexReason.pattern_too_long ∨
      (create engine cfg P flags).1.reason = some (analyzePattern P).reason) ∧
    (∀ e, ¬(cfg.maxLength < P.length) →
      (quickSafetyCheck P = true ∨ (analyzePattern P).safe = true) →
      engine P flags = Except.error e →
      (create engine cfg P flags).1.safe = false ∧
      (create engine cfg P flags).1.reason = some SafeRegexReason.invalid_syntax ∧
      (create engine cfg P flags).1.error = some ("Invalid regex syntax: " ++ e) ∧
      (create engine cfg P flags).2 = []) := by
  by_cases hlen : cfg.maxLength < P.length
  · rw [create, if_pos hlen]
    refine ⟨by rw [notifyBlock]; split <;> simp, ?_, ?_, ?_⟩
    · intro hs; exact absurd hs (by simp)
    · intro _; exact Or.inl rfl
    · intro e hl; exact absurd hlen hl
  · rw [create, if_neg hlen]
    by_cases hblk : (!quickSafetyCheck P && !(analyzePattern P).safe) = true
    · rw [if_pos hblk]
      refine ⟨by rw [notifyBlock]; split <;> simp, ?_, ?_, ?_⟩
      · intro hs; exact absurd hs (by simp)
      · intro _; exact Or.inr rfl
      · intro e _ hsafe _
        rw [Bool.and_eq_true] at hblk
        rcases hsafe with h | h
        · rw [h] at hblk; exact absurd hblk.1 (by simp)
        · rw [h] at hblk; exact absurd hblk.2 (by simp)
    · rw [if_neg hblk]
      cases heng : engine P flags with
      | ok r =>
        refine ⟨by simp, fun _ => rfl, fun hne => absurd rfl hne, ?_⟩
        intro e _ _ heq
        exact absurd heq (by simp)
      | error e0 =>
        refine ⟨by simp, ?_, fun hne => absurd rfl hne, ?_⟩
        · intro hs; exact absurd hs (by simp)
        · intro e _ _ heq
          injection heq with he
          subst he
          exact ⟨rfl, rfl, rfl, rfl⟩

/-- Witness for claim C8: the repository's own test case `create('[')` —
the pattern passes the pre-check (no quantifier characters) and native
compilation fails, giving `invalid_syntax` and no `onBlock` call. -/
theorem claim8_witness :
    (create jsEngine DEFAULT_CONFIG ['['] []).1.safe = false ∧
    (create jsEngine DEFAULT_CONFIG ['['] []).1.reason
      = some SafeRegexReason.invalid_syntax ∧
    (create jsEngine DEFAULT_CONFIG ['['] []).1.error
      = some ("Invalid regex syntax: " ++ "Invalid regular expression") ∧
    (create jsEngine DEFAULT_CONFIG ['['] []).2 = [] := by
  have h := (claim8_callback_discipline jsEngine DEFAULT_CONFIG ['['] []).2.2.2
    "Invalid regular expression" (by decide) (Or.inl (by decide)) rfl
  exact h

/-!
Structure of escaped text.  `escapeFU` emits, per input character, either a
two-character block `\c` (when `c` is a metacharacter) or the character
itself (which is then not a metacharacter).  Consequently a metacharacter
other than `\` is always followed either by a backslash or by a
non-metacharacter — which defeats every danger-signature window — and every
unescaped-quantifier or unescaped-parenthesis test in the nesting counter
fails. -/

/-- The head of a non-empty escaped string is a backslash or a
non-metacharacter. -/
theorem escapeFU_head (T : List Char) (b : Char) (rest : List Char)
    (h : escapeFU T = b :: rest) : b = '\\' ∨ b ∉ fuMeta := by
  cases T with
  | nil => exact absurd h (by simp [escapeFU])
  | cons c t =>
    rw [escapeFU] at h
    by_cases hc : c ∈ fuMeta
    · rw [if_pos hc] at h
      injection h with h1 _
      exact Or.inl h1.symm
    · rw [if_neg hc] at h
      injection h with h1 _
      exact Or.inr (h1 ▸ hc)

/-- In escaped text, a metacharacter other than `\` is never directly
followed by a metacharacter other than `\`. -/
theorem escapeFU_pairs (T : List Char) :
    ∀ u a b v, escapeFU T = u ++ a :: b :: v → a ∈ fuMeta → a ≠ '\\' →
      b = '\\' ∨ b ∉ fuMeta := by
  induction T with
  | nil =>
    intro u a b v h _ _
    have := congrArg List.length h
    simp [escapeFU] at this
    omega
  | cons c t ih =>
    intro u a b v h hmeta hne
    rw [escapeFU] at h
    by_cases hc : c ∈ fuMeta
    · rw [if_pos hc] at h
      cases u with
      | nil =>
        injection h with h1 _
        exact absurd h1.symm hne
      | cons x u2 =>
        injection h with _ h2
        cases u2 with
        | nil =>
          injection h2 with h3 h4
          exact escapeFU_head t b v h4
        | cons y u3 =>
          injection h2 with _ h4
          exact ih u3 a b v h4 hmeta hne
    · rw [if_neg hc] at h
      cases u with
      | nil =>
        injection h with h1 _
        exact absurd (h1 ▸ hmeta) hc
      | cons x u2 =>
        injection h with _ h2
        exact ih u2 a b v h2 hmeta hne

/-- Signature 1 never fires on escaped text. -/
theorem sig1_escapeFU (T : List Char) : sig1 (escapeFU T) = false := by
  cases hb : sig1 (escapeFU T)
  · rfl
  · obtain ⟨u, q, v, he, hqv⟩ := sig1_pair _ hb
    rcases escapeFU_pairs T u ')' q v he (by decide) (by decide) with h | h
    · rcases hqv with rfl | rfl <;> exact absurd h (by decide)
    · rcases hqv with rfl | rfl <;> exact absurd (by decide) h

/-- Signature 2 never fires on escaped text. -/
theorem sig2_escapeFU (T : List Char) : sig2 (escapeFU T) = false := by
  cases hb : sig2 (escapeFU T)
  · rfl
  · obtain ⟨u, q, v, he, hqv⟩ := sig2_pair _ hb
    rcases escapeFU_pairs T u ')' q v he (by decide) (by decide) with h | h
    · rcases hqv with rfl | rfl <;> exact absurd h (by decide)
    · rcases hqv with rfl | rfl <;> exact absurd (by decide) h

/-- Signature 3 never fires on escaped text. -/
theorem sig3_escapeFU (T : List Char) : sig3 (escapeFU T) = false := by
  cases hb : sig3 (escapeFU T)
  · rfl
  · obtain ⟨u, v, he⟩ := sig3_pair _ hb
    rcases escapeFU_pairs T u ')' '{' v he (by decide) (by decide) with h | h
    · exact absurd h (by decide)
    · exact absurd (by decide) h

/-- Signature 4 never fires on escaped text. -/
theorem sig4_escapeFU (T : List Char) : sig4 (escapeFU T) = false := by
  cases hb : sig4 (escapeFU T)
  · rfl
  · obtain ⟨u, q, v, he, hqv⟩ := sig4_pair _ hb
    have hm : q ∈ fuMeta := by rcases hqv with rfl | rfl <;> decide
    have hn : q ≠ '\\' := by rcases hqv with rfl | rfl <;> decide
    rcases escapeFU_pairs T u q ')' v he hm hn with h | h
    · exact absurd h (by decide)
    · exact absurd (by decide) h

/-- Signature 5 never fires on escaped text. -/
theorem sig5_escapeFU (T : List Char) : sig5 (escapeFU T) = false := by
  cases hb : sig5 (escapeFU T)
  · rfl
  · obtain ⟨u, q, v, he, hqv⟩ := sig5_pair _ hb
    rcases escapeFU_pairs T u ']' q v he (by decide) (by decide) with h | h
    · rcases hqv with rfl | rfl <;> exact absurd h (by decide)
    · rcases hqv with rfl | rfl <;> exact absurd (by decide) h

/-- The nesting counter records nothing on escaped text: every
metacharacter is directly preceded by a backslash. -/
theorem cqnAux_escapeFU (T : List Char) :
    ∀ prev inG maxD, cqnAux (escapeFU T) prev inG maxD = maxD := by
  induction T with
  | nil => intro prev inG maxD; rfl
  | cons c t ih =>
    intro prev inG maxD
    rw [escapeFU]
    by_cases hc : c ∈ fuMeta
    · rw [if_pos hc, cqnAux]
      rw [if_neg (by intro hx; exact absurd hx.1 (by decide))]
      rw [if_neg (by intro hx; exact absurd hx.1 (by decide))]
      rw [if_neg (by intro hx; rcases hx.1 with h | h | h <;> exact absurd h (by decide))]
      rw [cqnAux]
      rw [if_neg (by intro hx; exact hx.2 rfl)]
      rw [if_neg (by intro hx; exact hx.2 rfl)]
      rw [if_neg (by intro hx; exact hx.2.1 rfl)]
      exact ih _ _ _
    · rw [if_neg hc, cqnAux]
      rw [if_neg (by intro hx; exact hc (hx.1 ▸ by decide))]
      rw [if_neg (by intro hx; exact hc (hx.1 ▸ by decide))]
      rw [if_neg (by intro hx; rcases hx.1 with h | h | h <;> exact hc (h ▸ by decide))]
      exact ih _ _ _

/-- The full analyzer accepts every escaped string. -/
theorem analyzePattern_escapeFU (T : List Char) :
    analyzePattern (escapeFU T) = ⟨true, SafeRegexReason.ok, none⟩ := by
  have hc : countQuantifierNesting (escapeFU T) = 0 := by
    rw [countQuantifierNesting]; exact cqnAux_escapeFU T none 0 0
  simp [analyzePattern, sig1_escapeFU, sig2_escapeFU, sig3_escapeFU,
    sig4_escapeFU, sig5_escapeFU, hc]

/-- Escaping never shortens a string. -/
theorem escapeFU_length (T : List Char) : T.length ≤ (escapeFU T).length := by
  induction T with
  | nil => simp [escapeFU]
  | cons c t ih =>
    rw [escapeFU]
    by_cases hc : c ∈ fuMeta
    · rw [if_pos hc]; simpa using Nat.le_succ_of_le ih
    · rw [if_neg hc]; simpa using ih


/-- The engine parser maps an escaped string to the literal item sequence
of the original characters (given enough fuel). -/
theorem parseBody_escapeFU (T : List Char) :
    ∀ f, T.length < f →
      parseBody f (escapeFU T)
        = some (T.map fun c => RItem.once (RAtom.lit c), false) := by
  induction T with
  | nil =>
    intro f hf
    cases f with
    | zero => omega
    | succ f => rfl
  | cons c t ih =>
    intro f hf
    cases f with
    | zero => omega
    | succ f =>
      have hft : t.length < f := by simpa using hf
      have hsplit : splitStar (RAtom.lit c) (escapeFU t)
          = (RItem.once (RAtom.lit c), escapeFU t) := by
        cases hE : escapeFU t with
        | nil => rfl
        | cons b rest =>
          rw [splitStar]
          rcases escapeFU_head t b rest hE with hb | hb
          · rw [if_neg (by rw [hb]; decide)]
          · rw [if_neg (by intro h; subst h; exact hb (by decide))]
      rw [escapeFU]
      by_cases hc : c ∈ fuMeta
      · rw [if_pos hc]
        rw [parseBody.eq_def]
        simp only []
        have hc2 : c ∈ escapables := by
          rw [show escapables = fuMeta from rfl]; exact hc
        rw [if_pos trivial, if_pos hc2]
        simp only [hsplit, ih f hft, Option.map_some', List.map_cons]
        rw [if_neg (by intro hx; exact absurd hx.1 (by decide))]
      · rw [if_neg hc, parseBody.eq_def]
        simp only []
        have hdollar : c ≠ '$' := fun h => hc (h ▸ by decide)
        have hbs : c ≠ '\\' := fun h => hc (h ▸ by decide)
        have hbr : c ≠ '[' := fun h => hc (h ▸ by decide)
        have hdot : c ≠ '.' := fun h => hc (h ▸ by decide)
        have hrej : c ∉ rejectChars := by
          intro hr
          apply hc
          fin_cases hr <;> decide
        rw [if_neg (by intro hx; exact hdollar hx.1)]
        rw [if_neg hbs, if_neg hbr, if_neg hdot, if_neg hrej]
        simp only [hsplit, ih f hft, Option.map_some', List.map_cons]


/-- Substring containment on lists (the specification-side notion used to
describe literal matching): some suffix of `s` starts with `L`. -/
def isSubstringOf (L : List Char) : List Char → Bool
  | [] => L.isEmpty
  | d :: s2 => L.isPrefixOf (d :: s2) || isSubstringOf L s2

/-- Compiling an escaped string with the `i` flag yields the unanchored,
case-insensitive literal item sequence. -/
theorem jsEngine_escapeFU (T : List Char) :
    jsEngine (escapeFU T) ['i']
      = Except.ok ⟨false, false, T.map fun c => RItem.once (RAtom.lit c), true⟩ := by
  rw [jsEngine, if_pos (Or.inr rfl)]
  have hparse := parseBody_escapeFU T ((escapeFU T).length + 1)
    (Nat.lt_succ_of_le (escapeFU_length T))
  have hhead : ¬((escapeFU T).head? = some '^') := by
    intro hx
    cases hE : escapeFU T with
    | nil => rw [hE] at hx; exact absurd hx (by simp)
    | cons b rest =>
      rw [hE] at hx
      simp only [List.head?_cons, Option.some.injEq] at hx
      subst hx
      rcases escapeFU_head T '^' rest hE with hb | hb
      · exact absurd hb (by decide)
      · exact absurd (by decide) hb
  rw [if_neg hhead, compileBody, hparse]
  rfl

/-- Prefix matching of a literal item sequence under the `i` flag is
lower-cased prefix comparison. -/
theorem matchPrefF_lits (T : List Char) :
    ∀ f s, T.length < f →
      matchPrefF true f (T.map fun c => RItem.once (RAtom.lit c)) s
        = (T.map Char.toLower).isPrefixOf (s.map Char.toLower) := by
  induction T with
  | nil =>
    intro f s hf
    cases f with
    | zero => omega
    | succ f => simp [matchPrefF]
  | cons c t ih =>
    intro f s hf
    cases f with
    | zero => omega
    | succ f =>
      have hft : t.length < f := by simpa using hf
      cases s with
      | nil => simp [matchPrefF]
      | cons d s2 =>
        simp only [List.map_cons, matchPrefF, atomMatch, if_true,
          List.isPrefixOf_cons₂]
        rw [ih f s2 hft]

/-- Searching every start position for a lower-cased prefix is exactly
lower-cased substring containment. -/
theorem tailsAny_isSubstringOf (L : List Char) (s : List Char) :
    (s.tails.any fun t => L.isPrefixOf (t.map Char.toLower))
      = isSubstringOf L (s.map Char.toLower) := by
  induction s with
  | nil => cases L <;> simp [isSubstringOf, List.isPrefixOf]
  | cons a as ih =>
    rw [List.tails_cons, List.any_cons, ih, List.map_cons, isSubstringOf]

/-- `handle.test` for a compiled escaped string: case-insensitive substring
containment of the original text. -/
theorem rtest_escapeFU (T : List Char) (s : List Char) :
    rtest ⟨false, false, T.map fun c => RItem.once (RAtom.lit c), true⟩ s
      = isSubstringOf (T.map Char.toLower) (s.map Char.toLower) := by
  rw [rtest]
  simp only [Bool.false_eq_true, if_false]
  have hfun : (fun t => matchPref true (T.map fun c => RItem.once (RAtom.lit c)) t)
      = fun t => (T.map Char.toLower).isPrefixOf (t.map Char.toLower) := by
    funext t
    rw [matchPref]
    exact matchPrefF_lits T _ t (by simp; omega)
  rw [hfun, tailsAny_isSubstringOf]

set_option maxRecDepth 8000 in
/-- Claim C5, counterexample: the length gate runs on the ESCAPED pattern,
which can be up to twice as long as the input.  251 dots have length
251 ≤ 500, yet `fromUserInput` rejects them with `pattern_too_long`
because the escaped pattern has 502 characters. -/
theorem claim5_cex :
    (List.replicate 251 '.').length ≤ DEFAULT_CONFIG.maxLength ∧
    (fromUserInput jsEngine DEFAULT_CONFIG (List.replicate 251 '.')).1.safe = false ∧
    (fromUserInput jsEngine DEFAULT_CONFIG (List.replicate 251 '.')).1.reason
      = some SafeRegexReason.pattern_too_long := by
  refine ⟨by decide, ?_⟩
  have hlen : DEFAULT_CONFIG.maxLength
      < (escapeFU (List.replicate 251 '.')).length := by decide
  rw [fromUserInput, create, if_pos hlen]
  exact ⟨rfl, rfl⟩

/-- Claim C5 (amended): for every text `T` whose ESCAPED form fits in
`maxLength`, `fromUserInput T` succeeds, and the compiled pattern matches
an input `s` exactly when `s` contains `T` as a substring up to letter
case — escaping always yields an analyzer-safe, engine-accepted pattern,
failing only on length overflow of the escaped text. -/
theorem claim5_literal_matching (cfg : SafeRegexConfig) (T : List Char)
    (hlen : (escapeFU T).length ≤ cfg.maxLength) :
    (fromUserInput jsEngine cfg T).1.safe = true ∧
    (fromUserInput jsEngine cfg T).1.reason = some SafeRegexReason.ok ∧
    (fromUserInput jsEngine cfg T).2 = [] ∧
    ∀ s, ((fromUserInput jsEngine cfg T).1.regex.map fun r => rtest r s)
      = some (isSubstringOf (T.map Char.toLower) (s.map Char.toLower)) := by
  have hnot : ¬(cfg.maxLength < (escapeFU T).length) := by omega
  have hcond : (!quickSafetyCheck (escapeFU T)
      && !(analyzePattern (escapeFU T)).safe) = false := by
    rw [analyzePattern_escapeFU]
    simp
  rw [fromUserInput, create, if_neg hnot]
  simp only [hcond, Bool.false_eq_true, if_false]
  rw [jsEngine_escapeFU T]
  refine ⟨rfl, rfl, rfl, ?_⟩
  intro s
  simp only [Option.map_some']
  rw [rtest_escapeFU]

/-- Witness for the amended claim C5 at `T = "a.b"`: accepted, and the
compiled pattern finds `a.b` case-insensitively inside `xA.By`. -/
theorem claim5_witness :
    (escapeFU ['a', '.', 'b']).length ≤ DEFAULT_CONFIG.maxLength ∧
    (fromUserInput jsEngine DEFAULT_CONFIG ['a', '.', 'b']).1.safe = true ∧
    ((fromUserInput jsEngine DEFAULT_CONFIG ['a', '.', 'b']).1.regex.map fun r =>
      rtest r ['x', 'A', '.', 'B', 'y']) = some true := by
  have h := claim5_literal_matching DEFAULT_CONFIG ['a', '.', 'b'] (by decide)
  refine ⟨by decide, h.1, ?_⟩
  rw [h.2.2.2 ['x', 'A', '.', 'B', 'y']]
  decide
